import Mathlib

/-!
Shallow embedding of `library/ResourceAPI.nucleus.js` (class `NucleusResourceAPI`).

The repository file under verification implements resource lifecycle operations
(create / retrieve / update / remove) gated by a hierarchy-based authorization
scheme built on two injected stores:

* a record store (`$datastore`) offering hash-field writes, set inserts,
  deletes, existence checks and full-record reads, and
* a relationship store (`$resourceRelationshipDatastore`) holding directed
  labeled edges `(subject, predicate, object)`.

Both stores are external collaborators (their modules are not part of the
sources under verification); they are modelled here from the contracts stated
in the specification (parents = objects of `is-member` edges with a given
subject, children = subjects of `is-member` edges with a given object, hash
writes merge field sets, etc.).  Everything else is translated directly from
the JavaScript source.

The asynchronous recursive tree walks (`walkHierarchyTreeUpward` /
`walkHierarchyTreeDownward`) use a shared accumulator and expand every level
concurrently with `Promise.all`; with a store that answers each query in one
microtask this resolves level by level, in call order, which is embedded below
as a breadth-first frontier recursion threading the accumulator in order.  The
`fuel` parameter bounds the number of levels expanded; the JavaScript
recursion has no such bound and simply diverges on cyclic graphs.
-/

namespace Nucleus

abbrev NodeID := String

def SYSTEM : NodeID := "SYSTEM"

/-- Value a JavaScript `undefined` node identifier is modelled as: the verify
functions index `list[0]` of a possibly empty list and hand the result to a
walk, so the embedding needs a stand-in for that undefined value. -/
def jsUndefined : NodeID := "undefined"

def RESOURCE_ID_BY_TYPE_TABLE_NAME : String := "ResourceIDByType"

inductive NucleusErrorKind where
  | unexpectedValueType
  | undefinedContext
  | unauthorizedAction
  | base
  deriving DecidableEq, Repr

/-- Embedding of `NucleusError` and its subclasses (`Error.nucleus` is an
external collaborator; only the kind and message are relevant here). -/
structure NucleusError where
  kind : NucleusErrorKind
  message : String
  deriving DecidableEq, Repr

structure RelEdge where
  subject : NodeID
  predicate : String
  object : NodeID
  deriving DecidableEq, Repr

/-- Modelled from the spec: the RelationshipStore contract (spec section 6) —
directed labeled edges, queried by (subject, predicate) or by
(object, predicate), plus failure modes for its two mutating operations
(edge creation and whole-node edge removal), which are store rejections. -/
structure RelationshipStore where
  edges : List RelEdge
  edgeCreateError : Option NucleusError
  removeError : Option NucleusError
  deriving DecidableEq, Repr

/-- Modelled from the spec: `retrieveObjectOfRelationshipWithSubject` — the
objects of every edge with the given subject and predicate. -/
def retrieveObjectOfRelationshipWithSubject (s : RelationshipStore)
    (subject predicate : String) : List NodeID :=
  (s.edges.filter (fun e => e.subject == subject && e.predicate == predicate)).map
    (fun e => e.object)

/-- Modelled from the spec: `retrieveSubjectOfRelationshipWithObject` — the
subjects of every edge with the given object and predicate. -/
def retrieveSubjectOfRelationshipWithObject (s : RelationshipStore)
    (object predicate : String) : List NodeID :=
  (s.edges.filter (fun e => e.object == object && e.predicate == predicate)).map
    (fun e => e.subject)

def nodeParents (s : RelationshipStore) (x : NodeID) : List NodeID :=
  retrieveObjectOfRelationshipWithSubject s x "is-member"

def nodeChildren (s : RelationshipStore) (x : NodeID) : List NodeID :=
  retrieveSubjectOfRelationshipWithObject s x "is-member"

/-- Depth guard of the walks: `nodeIDList.length >= depth`, where the default
depth is `Infinity` (modelled as `none`), for which the guard never fires. -/
def depthReached (depth : Option Nat) (acc : List NodeID) : Bool :=
  match depth with
  | none => false
  | some d => decide (d ≤ acc.length)

/-- The `forEach` push loop of the walks: append every node that is not yet in
the accumulator (`if (!~nodeIDList.indexOf(nodeID)) nodeIDList.push(nodeID)`). -/
def pushNewNodes : List NodeID → List NodeID → List NodeID
  | acc, [] => acc
  | acc, x :: xs => pushNewNodes (if x ∈ acc then acc else acc ++ [x]) xs

/-- One resumption of `retrieveAncestorForResourceByID` on a single node:
fetch the next level for that node; stop the branch if the list is empty or
contains `SYSTEM`; otherwise push the unseen nodes and, unless the depth guard
fires on the updated accumulator, schedule the whole list for recursion. -/
def hierarchyNodeStep (next : NodeID → List NodeID) (depth : Option Nat)
    (acc : List NodeID) (x : NodeID) : List NodeID × List NodeID :=
  let nextNodes := next x
  if nextNodes = [] ∨ SYSTEM ∈ nextNodes then (acc, [])
  else
    let acc2 := pushNewNodes acc nextNodes
    if depthReached depth acc2 then (acc2, []) else (acc2, nextNodes)

/-- One level of the walk: process every frontier node in order (the
microtask resume order of `Promise.all`), threading the shared accumulator
and collecting the next frontier. -/
def hierarchyLevelStep (next : NodeID → List NodeID) (depth : Option Nat) :
    List NodeID → List NodeID → List NodeID × List NodeID
  | acc, [] => (acc, [])
  | acc, x :: xs =>
    let r1 := hierarchyNodeStep next depth acc x
    let r2 := hierarchyLevelStep next depth r1.1 xs
    (r2.1, r1.2 ++ r2.2)

/-- Level-bounded engine shared by both walks; `fuel` bounds the number of
levels expanded (the JavaScript recursion is unbounded and diverges on
cyclic graphs). -/
def walkHierarchyAux (next : NodeID → List NodeID) (depth : Option Nat) :
    Nat → List NodeID → List NodeID → List NodeID
  | 0, acc, _ => acc
  | fuel + 1, acc, frontier =>
    let r := hierarchyLevelStep next depth acc frontier
    walkHierarchyAux next depth fuel r.1 r.2

/-- `NucleusResourceAPI.walkHierarchyTreeUpward`: collect every ancestor by
repeatedly following `is-member` edges from subject to object. -/
def walkHierarchyTreeUpward (s : RelationshipStore) (resourceID : NodeID)
    (depth : Option Nat) (fuel : Nat) : List NodeID :=
  walkHierarchyAux (nodeParents s) depth fuel [] [resourceID]

/-- `NucleusResourceAPI.walkHierarchyTreeDownward`: collect every descendant
by following `is-member` edges from object to subject. -/
def walkHierarchyTreeDownward (s : RelationshipStore) (resourceID : NodeID)
    (depth : Option Nat) (fuel : Nat) : List NodeID :=
  walkHierarchyAux (nodeChildren s) depth fuel [] [resourceID]

/-- `NucleusResourceAPI.verifyThatUserCanRetrieveResource`: with no
relationship store the check always passes; otherwise intersect the user's
ancestors plus the descendants of the user's first ancestor with the
resource's ancestors. -/
def verifyThatUserCanRetrieveResource (relStore : Option RelationshipStore)
    (userID resourceID : NodeID) (fuel : Nat) : Bool :=
  match relStore with
  | none => true
  | some s =>
    let userAncestorNodeIDList := walkHierarchyTreeUpward s userID none fuel
    let userDirectAncestorChildrenNodeIDList :=
      walkHierarchyTreeDownward s (userAncestorNodeIDList.headD jsUndefined) none fuel
    let resourceAncestorNodeIDList := walkHierarchyTreeUpward s resourceID none fuel
    let nodeIDIntersectionList :=
      (userAncestorNodeIDList ++ userDirectAncestorChildrenNodeIDList).filter
        (fun nodeID => decide (nodeID ∈ resourceAncestorNodeIDList))
    !nodeIDIntersectionList.isEmpty

/-- `NucleusResourceAPI.verifyThatUserCanUpdateResource`: like the retrieve
check, but seeded with the user's direct `is-member` parents instead of the
full ancestor chain. -/
def verifyThatUserCanUpdateResource (relStore : Option RelationshipStore)
    (userID resourceID : NodeID) (fuel : Nat) : Bool :=
  match relStore with
  | none => true
  | some s =>
    let userDirectAncestorNodeIDList := retrieveObjectOfRelationshipWithSubject s userID "is-member"
    let userDirectAncestorChildrenNodeIDList :=
      walkHierarchyTreeDownward s (userDirectAncestorNodeIDList.headD jsUndefined) none fuel
    let resourceAncestorNodeIDList := walkHierarchyTreeUpward s resourceID none fuel
    let nodeIDIntersectionList :=
      (userDirectAncestorNodeIDList ++ userDirectAncestorChildrenNodeIDList).filter
        (fun nodeID => decide (nodeID ∈ resourceAncestorNodeIDList))
    !nodeIDIntersectionList.isEmpty

/-- Meta block of a resource (`meta: {createdISOTime, updatedISOTime, ...}`);
timestamps are modelled as natural numbers ordered like the ISO strings the
code produces, and each field is optional since a raw stored hash may lack
either key. -/
structure NucleusMeta where
  createdISOTime : Option Nat
  updatedISOTime : Option Nat
  deriving DecidableEq, Repr

/-- A JavaScript attribute object / stored record hash: the two reserved keys
`ID` and `meta` plus the open field map (an association list read through
`List.lookup`, so duplicate keys behave like repeated assignment). -/
structure FieldSet where
  idField : Option String
  metaField : Option NucleusMeta
  fields : List (String × String)
  deriving DecidableEq, Repr

def emptyFieldSet : FieldSet := { idField := none, metaField := none, fields := [] }

def optionOr {α : Type} (a b : Option α) : Option α :=
  match a with
  | some v => some v
  | none => b

/-- Merge of two field sets with the second one winning per present field
(`Object.assign(old, new)` observed through key lookup; a hash-field write
into an existing record has the same per-field semantics). -/
def mergeFieldSet (old new : FieldSet) : FieldSet :=
  { idField := optionOr new.idField old.idField
  , metaField := optionOr new.metaField old.metaField
  , fields := new.fields ++ old.fields }

/-- Modelled from the spec: the ResourceStore contract (spec section 6) —
record hashes addressed by item key, a per-type ID set, and rejection modes
for the two write operations used by `createResource`. -/
structure Datastore where
  hashes : String → Option FieldSet
  sets : List (String × String × String)
  hashWriteError : Option NucleusError
  setWriteError : Option NucleusError

/-- Modelled from the spec: a hash-field write merges the payload into the
record at the key (missing record behaves as empty). -/
def Datastore.writeHash (ds : Datastore) (key : String) (payload : FieldSet) : Datastore :=
  { ds with hashes := fun k =>
      if k = key then some (mergeFieldSet ((ds.hashes key).getD emptyFieldSet) payload)
      else ds.hashes k }

/-- Modelled from the spec: `removeItemByName` deletes the record at the key. -/
def Datastore.removeItem (ds : Datastore) (key : String) : Datastore :=
  { ds with hashes := fun k => if k = key then none else ds.hashes k }

/-- Embedding of a constructed `NucleusResource` instance: its type tag, ID,
meta block and open attribute fields. -/
structure NucleusResource where
  resourceType : String
  ID : String
  meta : NucleusMeta
  fields : List (String × String)
  deriving DecidableEq, Repr

/-- Modelled from the spec: `NucleusResource.generateItemKey(type, id)` — a
deterministic storage key derived from the type and the ID alone. -/
def generateItemKey (resourceType resourceID : String) : String :=
  resourceType ++ ":" ++ resourceID

def NucleusResource.generateOwnItemKey (r : NucleusResource) : String :=
  generateItemKey r.resourceType r.ID

/-- A resource factory (`NucleusResourceModel`): called with the raw
attributes, the acting user and an optional reserved ID; it may throw a
validation error. -/
abbrev ResourceFactory :=
  FieldSet → String → Option String → Except NucleusError NucleusResource

/-- Modelled from the spec: the ResourceFactory contract (spec section 6) —
`construct(attributes, actingUserID, reservedID?)` produces a resource that
honors a caller-suggested ID (the reserved ID first, then an `ID` attribute,
then a fresh identifier) and honors a provided meta block, creating a fresh
one stamped with the current time otherwise. -/
def nucleusResourceModel (resourceType freshID : String) (now : Nat) : ResourceFactory :=
  fun attrs _actingUserID reservedID =>
    .ok { resourceType := resourceType
        , ID := (optionOr reservedID (optionOr attrs.idField (some freshID))).getD freshID
        , meta := attrs.metaField.getD { createdISOTime := some now, updatedISOTime := some now }
        , fields := attrs.fields }

structure CreateOutcome where
  resource : NucleusResource
  resourceAuthorID : String
  resourceMemberNodeID : String
  deriving DecidableEq, Repr

/-- Result of `createResource`: the settled promise plus the final state of
the caller-supplied attributes object and of both stores. -/
structure CreateResult where
  outcome : Except NucleusError CreateOutcome
  attributesAfter : FieldSet
  datastoreAfter : Option Datastore
  relStoreAfter : Option RelationshipStore

/-- `NucleusResourceAPI.createResource`.  Validations come first, then parent
resolution, then the `try` block: the reserved ID is saved, the reserved keys
are deleted from the caller's attributes object, and the factory runs —
a synchronous factory throw is caught and wrapped into the
"Could not create ... because of an external error" `NucleusError`.  The
store writes, however, are only *returned* from the `try` block
(`return Promise.all(...)` without `await`), so their rejections settle the
outer promise after the function body has completed and the `catch` clause
never sees them: store failures propagate unwrapped. -/
def createResource (relStore : Option RelationshipStore) (dstore : Option Datastore)
    (resourceType : String) (factory : ResourceFactory) (resourceAttributes : FieldSet)
    (originUserID : String) (parentNodeIDArg : Option String) : CreateResult :=
  if originUserID = "" then
    ⟨.error ⟨.unexpectedValueType, "The origin user ID must be a string and cannot be undefined."⟩,
      resourceAttributes, dstore, relStore⟩
  else
    match dstore with
    | none =>
      ⟨.error ⟨.undefinedContext, "No datastore is provided."⟩, resourceAttributes, none, relStore⟩
    | some ds =>
      let parentNodeID :=
        match relStore, parentNodeIDArg with
        | some s, none => (retrieveObjectOfRelationshipWithSubject s originUserID "is-member").head?
        | _, p => p
      match parentNodeID with
      | none =>
        ⟨.error ⟨.base, "Could not retrieve the node which the origin user (" ++ originUserID
            ++ ") is member of."⟩, resourceAttributes, some ds, relStore⟩
      | some parent =>
        let reservedResourceID := resourceAttributes.idField
        let strippedAttributes :=
          { resourceAttributes with idField := none, metaField := none }
        match factory strippedAttributes originUserID reservedResourceID with
        | .error e =>
          ⟨.error ⟨.base, "Could not create " ++ resourceType ++ " because of an external error: "
              ++ e.message⟩, strippedAttributes, some ds, relStore⟩
        | .ok resource =>
          let resourceItemKey := resource.generateOwnItemKey
          let payload : FieldSet :=
            { idField := some resource.ID, metaField := some resource.meta
            , fields := resource.fields }
          let dsAfterHash :=
            match ds.hashWriteError with
            | none => ds.writeHash resourceItemKey payload
            | some _ => ds
          let dsAfterSet :=
            match ds.setWriteError with
            | none => { dsAfterHash with sets := dsAfterHash.sets
                ++ [(RESOURCE_ID_BY_TYPE_TABLE_NAME, resourceType, resource.ID)] }
            | some _ => dsAfterHash
          match ds.hashWriteError, ds.setWriteError with
          | some e, _ => ⟨.error e, strippedAttributes, some dsAfterSet, relStore⟩
          | none, some e => ⟨.error e, strippedAttributes, some dsAfterSet, relStore⟩
          | none, none =>
            match relStore with
            | none =>
              ⟨.ok ⟨resource, originUserID, parent⟩, strippedAttributes, some dsAfterSet, none⟩
            | some s =>
              match s.edgeCreateError with
              | some e => ⟨.error e, strippedAttributes, some dsAfterSet, some s⟩
              | none =>
                let s2 := { s with edges := s.edges
                    ++ [⟨resource.ID, "is-member", parent⟩, ⟨resource.ID, "is-authored", originUserID⟩] }
                ⟨.ok ⟨resource, originUserID, parent⟩, strippedAttributes, some dsAfterSet, some s2⟩

/-- Result of `updatesResourceByID`: the settled promise plus the final state
of the caller-supplied attributes object and the record store. -/
structure UpdateResult where
  outcome : Except NucleusError NucleusResource
  attributesAfter : FieldSet
  datastoreAfter : Option Datastore

/-- `NucleusResourceAPI.updatesResourceByID`: validations, authorization via
the update check, existence check, then: read the stale record, default its
meta's `updatedISOTime` (existing keys of the stale meta win over the fresh
stamp), strip the reserved keys from the patch, build the resource from the
stale attributes merged with the patch (patch wins per key), force a fresh
`updatedISOTime` on the resource, and write back only the meta block plus the
raw patch fields.  `t1` and `t2` are the two `new Date()` readings. -/
def updatesResourceByID (relStore : Option RelationshipStore) (dstore : Option Datastore)
    (resourceType : String) (factory : ResourceFactory) (resourceID : String)
    (resourceAttributes : FieldSet) (originUserID : String)
    (fuel t1 t2 : Nat) : UpdateResult :=
  if originUserID = "" then
    ⟨.error ⟨.unexpectedValueType, "The origin user ID must be a string and cannot be undefined."⟩,
      resourceAttributes, dstore⟩
  else
    match dstore with
    | none => ⟨.error ⟨.undefinedContext, "No datastore is provided."⟩, resourceAttributes, none⟩
    | some ds =>
      if verifyThatUserCanUpdateResource relStore originUserID resourceID fuel then
        let resourceItemKey := generateItemKey resourceType resourceID
        match ds.hashes resourceItemKey with
        | none =>
          ⟨.error ⟨.undefinedContext, "The " ++ resourceType ++ " (\"" ++ resourceID
              ++ "\") does not exist."⟩, resourceAttributes, some ds⟩
        | some staleResourceAttributes =>
          let mergedMeta : NucleusMeta :=
            match staleResourceAttributes.metaField with
            | some m =>
              { createdISOTime := m.createdISOTime
              , updatedISOTime := optionOr m.updatedISOTime (some t1) }
            | none => { createdISOTime := none, updatedISOTime := some t1 }
          let staleWithMeta := { staleResourceAttributes with metaField := some mergedMeta }
          let strippedAttributes :=
            { resourceAttributes with idField := none, metaField := none }
          let mergedAttributes := mergeFieldSet staleWithMeta strippedAttributes
          match factory mergedAttributes originUserID none with
          | .error e => ⟨.error e, strippedAttributes, some ds⟩
          | .ok resource0 =>
            let resource :=
              { resource0 with meta := { resource0.meta with updatedISOTime := some t2 } }
            let writePayload : FieldSet :=
              { idField := none, metaField := some resource.meta
              , fields := strippedAttributes.fields }
            match ds.hashWriteError with
            | some e => ⟨.error e, strippedAttributes, some ds⟩
            | none =>
              ⟨.ok resource, strippedAttributes, some (ds.writeHash resourceItemKey writePayload)⟩
      else
        ⟨.error ⟨.unauthorizedAction, "The user (\"" ++ originUserID
            ++ "\") is not authorized to update the " ++ resourceType ++ " (\"" ++ resourceID
            ++ "\")"⟩, resourceAttributes, some ds⟩

/-- Result of `removeResourceByID`: the settled promise plus the final state
of both stores. -/
structure RemoveResult where
  outcome : Except NucleusError String
  datastoreAfter : Option Datastore
  relStoreAfter : Option RelationshipStore

/-- `NucleusResourceAPI.removeResourceByID`: validations, authorization via
the update check, existence check, then the record is deleted and afterwards
every relationship edge touching the resource ID as either endpoint is
removed; a failure of that cleanup settles the whole call as rejected while
the record deletion keeps its effect. -/
def removeResourceByID (relStore : Option RelationshipStore) (dstore : Option Datastore)
    (resourceType resourceID originUserID : String) (fuel : Nat) : RemoveResult :=
  if originUserID = "" then
    ⟨.error ⟨.unexpectedValueType, "The origin user ID must be a string and cannot be undefined."⟩,
      dstore, relStore⟩
  else
    match dstore with
    | none => ⟨.error ⟨.undefinedContext, "No datastore is provided."⟩, none, relStore⟩
    | some ds =>
      if verifyThatUserCanUpdateResource relStore originUserID resourceID fuel then
        let resourceItemKey := generateItemKey resourceType resourceID
        if (ds.hashes resourceItemKey).isSome then
          let ds2 := ds.removeItem resourceItemKey
          match relStore with
          | none => ⟨.ok resourceID, some ds2, none⟩
          | some s =>
            match s.removeError with
            | some e => ⟨.error e, some ds2, some s⟩
            | none =>
              let keepEdge := fun (e : RelEdge) => !(e.subject == resourceID || e.object == resourceID)
              let s2 := { s with edges := s.edges.filter keepEdge }
              ⟨.ok resourceID, some ds2, some s2⟩
        else
          ⟨.error ⟨.undefinedContext, "The " ++ resourceType ++ " (\"" ++ resourceID
              ++ "\") does not exist."⟩, some ds, relStore⟩
      else
        ⟨.error ⟨.unauthorizedAction, "The user (\"" ++ originUserID
            ++ "\") is not authorized to remove the " ++ resourceType ++ " (\"" ++ resourceID
            ++ "\")"⟩, some ds, relStore⟩

theorem pushNewNodes_mem (xs : List NodeID) :
    ∀ (acc : List NodeID) (y : NodeID), y ∈ pushNewNodes acc xs ↔ y ∈ acc ∨ y ∈ xs := by
  induction xs with
  | nil => intro acc y; simp [pushNewNodes]
  | cons x xs ih =>
    intro acc y
    simp only [pushNewNodes]
    by_cases hx : x ∈ acc
    · rw [if_pos hx, ih]
      simp only [List.mem_cons]
      constructor
      · rintro (h | h)
        · exact Or.inl h
        · exact Or.inr (Or.inr h)
      · rintro (h | h | h)
        · exact Or.inl h
        · exact Or.inl (h ▸ hx)
        · exact Or.inr h
    · rw [if_neg hx, ih]
      simp only [List.mem_append, List.mem_cons, List.mem_singleton]
      tauto

theorem pushNewNodes_extension (xs : List NodeID) :
    ∀ (acc : List NodeID), ∃ ext, pushNewNodes acc xs = acc ++ ext ∧ ∀ y ∈ ext, y ∈ xs := by
  induction xs with
  | nil => intro acc; exact ⟨[], by simp [pushNewNodes]⟩
  | cons x xs ih =>
    intro acc
    simp only [pushNewNodes]
    by_cases hx : x ∈ acc
    · rw [if_pos hx]
      obtain ⟨ext, heq, hmem⟩ := ih acc
      exact ⟨ext, heq, fun y hy => List.mem_cons_of_mem x (hmem y hy)⟩
    · rw [if_neg hx]
      obtain ⟨ext, heq, hmem⟩ := ih (acc ++ [x])
      refine ⟨x :: ext, by simpa using heq, ?_⟩
      intro y hy
      rcases List.mem_cons.mp hy with h | h
      · exact h ▸ List.mem_cons_self x xs
      · exact List.mem_cons_of_mem x (hmem y h)

theorem pushNewNodes_nodup (xs : List NodeID) :
    ∀ (acc : List NodeID), acc.Nodup → (pushNewNodes acc xs).Nodup := by
  induction xs with
  | nil => intro acc h; simpa [pushNewNodes] using h
  | cons x xs ih =>
    intro acc hacc
    simp only [pushNewNodes]
    by_cases hx : x ∈ acc
    · rw [if_pos hx]; exact ih acc hacc
    · rw [if_neg hx]
      refine ih (acc ++ [x]) ?_
      simp [List.nodup_append, hacc, hx]

theorem hierarchyLevelStep_extension (next : NodeID → List NodeID) (depth : Option Nat) :
    ∀ (frontier acc : List NodeID),
      ∃ ext, (hierarchyLevelStep next depth acc frontier).1 = acc ++ ext ∧
        ∀ y ∈ ext, ∃ x, y ∈ next x ∧ ¬(next x = [] ∨ SYSTEM ∈ next x) := by
  intro frontier
  induction frontier with
  | nil => intro acc; exact ⟨[], by simp [hierarchyLevelStep]⟩
  | cons x xs ih =>
    intro acc
    simp only [hierarchyLevelStep, hierarchyNodeStep]
    by_cases hg : next x = [] ∨ SYSTEM ∈ next x
    · rw [if_pos hg]
      obtain ⟨ext, heq, hmem⟩ := ih acc
      exact ⟨ext, heq, hmem⟩
    · rw [if_neg hg]
      obtain ⟨ext0, heq0, hmem0⟩ := pushNewNodes_extension (next x) acc
      by_cases hd : depthReached depth (pushNewNodes acc (next x)) = true
      · rw [if_pos hd]
        obtain ⟨ext1, heq1, hmem1⟩ := ih (pushNewNodes acc (next x))
        refine ⟨ext0 ++ ext1, by rw [heq1, heq0, List.append_assoc], ?_⟩
        intro y hy
        rcases List.mem_append.mp hy with h | h
        · exact ⟨x, hmem0 y h, hg⟩
        · exact hmem1 y h
      · rw [if_neg hd]
        obtain ⟨ext1, heq1, hmem1⟩ := ih (pushNewNodes acc (next x))
        refine ⟨ext0 ++ ext1, by rw [heq1, heq0, List.append_assoc], ?_⟩
        intro y hy
        rcases List.mem_append.mp hy with h | h
        · exact ⟨x, hmem0 y h, hg⟩
        · exact hmem1 y h

theorem walkHierarchyAux_extension (next : NodeID → List NodeID) (depth : Option Nat) :
    ∀ (fuel : Nat) (acc frontier : List NodeID),
      ∃ ext, walkHierarchyAux next depth fuel acc frontier = acc ++ ext ∧
        ∀ y ∈ ext, ∃ x, y ∈ next x ∧ ¬(next x = [] ∨ SYSTEM ∈ next x) := by
  intro fuel
  induction fuel with
  | zero => intro acc frontier; exact ⟨[], by simp [walkHierarchyAux]⟩
  | succ fuel ih =>
    intro acc frontier
    simp only [walkHierarchyAux]
    obtain ⟨ext0, heq0, hmem0⟩ := hierarchyLevelStep_extension next depth frontier acc
    obtain ⟨ext1, heq1, hmem1⟩ :=
      ih (hierarchyLevelStep next depth acc frontier).1 (hierarchyLevelStep next depth acc frontier).2
    refine ⟨ext0 ++ ext1, by rw [heq1, heq0, List.append_assoc], ?_⟩
    intro y hy
    rcases List.mem_append.mp hy with h | h
    · exact hmem0 y h
    · exact hmem1 y h

/-- C6 kernel: nothing the walk engine ever appends is the sentinel. -/
theorem walkHierarchyAux_system_free (next : NodeID → List NodeID) (depth : Option Nat)
    (fuel : Nat) (frontier : List NodeID) :
    SYSTEM ∉ walkHierarchyAux next depth fuel [] frontier := by
  intro hmem
  obtain ⟨ext, heq, hsrc⟩ := walkHierarchyAux_extension next depth fuel [] frontier
  rw [heq] at hmem
  simp only [List.nil_append] at hmem
  obtain ⟨x, hx, hguard⟩ := hsrc SYSTEM hmem
  exact hguard (Or.inr hx)

/-- C6: for every starting node, depth and finite relationship-graph state,
the lists returned by `walkHierarchyTreeUpward` and `walkHierarchyTreeDownward`
never contain the sentinel `SYSTEM`, and a branch whose next step reaches
`SYSTEM` terminates on the spot: it neither pushes anything into the
accumulator nor schedules any recursion, so `SYSTEM` is excluded from the
result. -/
theorem walks_never_return_SYSTEM :
    (∀ (s : RelationshipStore) (start : NodeID) (depth : Option Nat) (fuel : Nat),
        SYSTEM ∉ walkHierarchyTreeUpward s start depth fuel ∧
        SYSTEM ∉ walkHierarchyTreeDownward s start depth fuel)
    ∧ ∀ (next : NodeID → List NodeID) (depth : Option Nat) (acc : List NodeID) (x : NodeID),
        SYSTEM ∈ next x → hierarchyNodeStep next depth acc x = (acc, []) := by
  constructor
  · intro s start depth fuel
    exact ⟨walkHierarchyAux_system_free _ _ _ _, walkHierarchyAux_system_free _ _ _ _⟩
  · intro next depth acc x hx
    simp [hierarchyNodeStep, hx]

/-- Witness for C6: a concrete branch whose next step reaches `SYSTEM`
terminates without touching the accumulator. -/
theorem walks_never_return_SYSTEM_witness :
    hierarchyNodeStep (fun _ => [SYSTEM, "q"]) none ["a"] "n" = (["a"], []) :=
  walks_never_return_SYSTEM.2 (fun _ => [SYSTEM, "q"]) none ["a"] "n" (by decide)

theorem filter_mem_not_isEmpty_iff (l R : List NodeID) :
    (!(l.filter (fun n => decide (n ∈ R))).isEmpty) = true ↔ ∃ n, n ∈ l ∧ n ∈ R := by
  induction l with
  | nil => simp
  | cons x xs ih =>
    by_cases hx : x ∈ R
    · simp [List.filter_cons, hx]
    · simp only [List.filter_cons, decide_eq_true_eq, if_neg hx, ih]
      constructor
      · rintro ⟨n, hn, hnR⟩
        exact ⟨n, List.mem_cons_of_mem x hn, hnR⟩
      · rintro ⟨n, hn, hnR⟩
        rcases List.mem_cons.mp hn with h | h
        · exact absurd (h ▸ hnR) hx
        · exact ⟨n, h, hnR⟩

/-- C1: `verifyThatUserCanRetrieveResource` grants access exactly when no
relationship store is configured or when, with `A` the user's ancestor walk,
`B` the descendant walk from `A[0]` and `R` the resource's ancestor walk, the
intersection `(A ∪ B) ∩ R` is non-empty; an empty intersection denies
(fail-closed). -/
theorem verifyRetrieve_iff_intersection (relStore : Option RelationshipStore)
    (userID resourceID : NodeID) (fuel : Nat) :
    verifyThatUserCanRetrieveResource relStore userID resourceID fuel = true ↔
      (relStore = none ∨
        ∃ s, relStore = some s ∧
          ∃ nodeID,
            (nodeID ∈ walkHierarchyTreeUpward s userID none fuel ∨
              nodeID ∈ walkHierarchyTreeDownward s
                ((walkHierarchyTreeUpward s userID none fuel).headD jsUndefined) none fuel) ∧
            nodeID ∈ walkHierarchyTreeUpward s resourceID none fuel) := by
  cases relStore with
  | none => simp [verifyThatUserCanRetrieveResource]
  | some s =>
    simp only [verifyThatUserCanRetrieveResource]
    rw [filter_mem_not_isEmpty_iff]
    simp [List.mem_append]

theorem walkHierarchyAux_nil_frontier (next : NodeID → List NodeID) (depth : Option Nat) :
    ∀ (fuel : Nat) (acc : List NodeID), walkHierarchyAux next depth fuel acc [] = acc := by
  intro fuel
  induction fuel with
  | zero => intro acc; rfl
  | succ fuel ih => intro acc; simpa [walkHierarchyAux, hierarchyLevelStep] using ih acc

theorem walkUpward_nil_of_no_parents (s : RelationshipStore) (userID : NodeID) (fuel : Nat)
    (h : retrieveObjectOfRelationshipWithSubject s userID "is-member" = []) :
    walkHierarchyTreeUpward s userID none fuel = [] := by
  cases fuel with
  | zero => rfl
  | succ fuel =>
    have hnp : nodeParents s userID = [] := h
    simp only [walkHierarchyTreeUpward, walkHierarchyAux, hierarchyLevelStep,
      hierarchyNodeStep, hnp]
    simpa using walkHierarchyAux_nil_frontier (nodeParents s) none fuel []

theorem walkUpward_head_of_parents (s : RelationshipStore) (userID : NodeID) (fuel : Nat)
    (p : NodeID) (ps : List NodeID)
    (hP : retrieveObjectOfRelationshipWithSubject s userID "is-member" = p :: ps)
    (hS : SYSTEM ∉ p :: ps) :
    ∃ tail, walkHierarchyTreeUpward s userID none (fuel + 1) = p :: tail ∧
      ∀ q ∈ p :: ps, q ∈ p :: tail := by
  have hnp : nodeParents s userID = p :: ps := hP
  have hguard : ¬(SYSTEM = p ∨ SYSTEM ∈ ps) := by simpa using hS
  have hstep : walkHierarchyTreeUpward s userID none (fuel + 1) =
      walkHierarchyAux (nodeParents s) none fuel (pushNewNodes [] (p :: ps)) (p :: ps) := by
    simp [walkHierarchyTreeUpward, walkHierarchyAux, hierarchyLevelStep, hierarchyNodeStep,
      hnp, hguard, depthReached]
  have hpush : pushNewNodes [] (p :: ps) = pushNewNodes [p] ps := by
    simp [pushNewNodes]
  obtain ⟨ext2, heq2, _⟩ := pushNewNodes_extension ps [p]
  obtain ⟨ext3, heq3, _⟩ :=
    walkHierarchyAux_extension (nodeParents s) none fuel (pushNewNodes [] (p :: ps)) (p :: ps)
  have hfin : walkHierarchyAux (nodeParents s) none fuel (pushNewNodes [] (p :: ps)) (p :: ps)
      = p :: (ext2 ++ ext3) := by
    rw [heq3, hpush, heq2]; simp
  refine ⟨ext2 ++ ext3, by rw [hstep, hfin], ?_⟩
  intro q hq
  have hqmem : q ∈ pushNewNodes [] (p :: ps) := by
    rw [pushNewNodes_mem]; exact Or.inr hq
  have hmem2 : q ∈ walkHierarchyAux (nodeParents s) none fuel (pushNewNodes [] (p :: ps)) (p :: ps) := by
    rw [heq3]; exact List.mem_append_left _ hqmem
  rw [hfin] at hmem2
  exact hmem2

/-- Hierarchy state exhibiting the C2 counterexample: the user `U` is a direct
member of `SYSTEM`, the resource `R1` sits under the unrelated top-level node
`X`. -/
def relStoreSystemParent : RelationshipStore :=
  { edges := [⟨"U", "is-member", "SYSTEM"⟩, ⟨"X", "is-member", "SYSTEM"⟩, ⟨"R1", "is-member", "X"⟩]
  , edgeCreateError := none, removeError := none }

/-- Counterexample to C2 as stated: with the user a direct member of
`SYSTEM`, the update check walks down from `SYSTEM` and reaches the whole
forest (granting update), while the retrieve check walks up from the user,
hits the `SYSTEM` guard, gets an empty ancestor list and denies — so update
authorization is not contained in retrieve authorization. -/
theorem updateAccess_without_retrieveAccess :
    verifyThatUserCanUpdateResource (some relStoreSystemParent) "U" "R1" 5 = true ∧
      verifyThatUserCanRetrieveResource (some relStoreSystemParent) "U" "R1" 5 = false := by
  constructor
  · rfl
  · rfl

/-- Hierarchy state for the second half of C2: the user `u` sits in
department `d` under organisation `o`; the resource `r2` sits in the sibling
department `d2` under the same organisation. -/
def relStoreSharedGrandparent : RelationshipStore :=
  { edges := [⟨"u", "is-member", "d"⟩, ⟨"d", "is-member", "o"⟩, ⟨"o", "is-member", "SYSTEM"⟩,
      ⟨"r2", "is-member", "d2"⟩, ⟨"d2", "is-member", "o"⟩]
  , edgeCreateError := none, removeError := none }

/-- C2 (amended): update authorization implies retrieve authorization for
every state in which the user's direct `is-member` parent list does not
contain `SYSTEM` (when the user sits directly under `SYSTEM` the containment
fails, as the counterexample shows); the converse implication still fails for
some state: retrieve access may flow from shared ancestry above the user's
direct parent while update access does not. -/
theorem updateAccess_implies_retrieveAccess_unless_system_parent :
    (∀ (s : RelationshipStore) (userID resourceID : NodeID) (fuel : Nat),
        SYSTEM ∉ retrieveObjectOfRelationshipWithSubject s userID "is-member" →
        verifyThatUserCanUpdateResource (some s) userID resourceID fuel = true →
        verifyThatUserCanRetrieveResource (some s) userID resourceID fuel = true)
    ∧ (verifyThatUserCanRetrieveResource (some relStoreSharedGrandparent) "u" "r2" 5 = true ∧
        verifyThatUserCanUpdateResource (some relStoreSharedGrandparent) "u" "r2" 5 = false) := by
  constructor
  · intro s userID resourceID fuel hS hupd
    simp only [verifyThatUserCanUpdateResource] at hupd
    rw [filter_mem_not_isEmpty_iff] at hupd
    obtain ⟨n, hn, hnR⟩ := hupd
    simp only [verifyThatUserCanRetrieveResource]
    rw [filter_mem_not_isEmpty_iff]
    cases hP : retrieveObjectOfRelationshipWithSubject s userID "is-member" with
    | nil =>
      rw [walkUpward_nil_of_no_parents s userID fuel hP]
      rw [hP] at hn
      simp only [List.nil_append] at hn
      exact ⟨n, List.mem_append_right _ hn, hnR⟩
    | cons p ps =>
      cases fuel with
      | zero =>
        exact absurd hnR (by simp [walkHierarchyTreeUpward, walkHierarchyAux])
      | succ fuel =>
        rw [hP] at hS hn
        obtain ⟨tail, hwalk, hsub⟩ := walkUpward_head_of_parents s userID fuel p ps hP hS
        rw [hwalk]
        rcases List.mem_append.mp hn with h | h
        · exact ⟨n, List.mem_append_left _ (hsub n h), hnR⟩
        · refine ⟨n, List.mem_append_right _ ?_, hnR⟩
          simpa using h
  · constructor
    · rfl
    · rfl

/-- Witness for the amended C2: a concrete state (user and resource in the
same organisation) where the hypotheses hold and the implication yields
retrieve access from update access. -/
theorem updateAccess_implies_retrieveAccess_witness :
    SYSTEM ∉ retrieveObjectOfRelationshipWithSubject relStoreSharedGrandparent "d" "is-member" ∧
      verifyThatUserCanUpdateResource (some relStoreSharedGrandparent) "d" "u" 5 = true ∧
      verifyThatUserCanRetrieveResource (some relStoreSharedGrandparent) "d" "u" 5 = true := by
  refine ⟨by decide, by rfl, ?_⟩
  exact updateAccess_implies_retrieveAccess_unless_system_parent.1
    relStoreSharedGrandparent "d" "u" 5 (by decide) (by rfl)

/-- Paths in the hierarchy graph: `PathChain next x p y` states that `p`
lists the nodes visited after `x` on a walk following `next`, ending at `y`
(with `p = []` meaning `y = x`); `p.length` is the number of levels
descended, so the nodes within `k` levels of `x` are exactly those reachable
by a chain of length at most `k`. -/
inductive PathChain (next : NodeID → List NodeID) : NodeID → List NodeID → NodeID → Prop
  | nil (x : NodeID) : PathChain next x [] x
  | cons {x y z : NodeID} {p : List NodeID} :
      y ∈ next x → PathChain next y p z → PathChain next x (y :: p) z

theorem PathChain.snoc {next : NodeID → List NodeID} {x y z : NodeID} {p : List NodeID}
    (h : PathChain next x p y) : z ∈ next y → PathChain next x (p ++ [z]) z := by
  induction h with
  | nil w => intro hz; exact .cons hz (.nil z)
  | cons hy _ ih => intro hz; exact .cons hy (ih hz)

theorem pathChain_suffix {next : NodeID → List NodeID} :
    ∀ (p1 : List NodeID) {x z w : NodeID} {p2 : List NodeID},
      PathChain next x (p1 ++ z :: p2) w → PathChain next z p2 w := by
  intro p1
  induction p1 with
  | nil =>
    intro x z w p2 h
    cases h with
    | cons _ hrest => exact hrest
  | cons a p1 ih =>
    intro x z w p2 h
    cases h with
    | cons _ hrest => exact ih hrest

/-- Acyclicity of a hierarchy direction: no node reaches itself by one or
more steps. -/
def NextAcyclic (next : NodeID → List NodeID) : Prop :=
  ∀ (x : NodeID) (p : List NodeID), p ≠ [] → ¬ PathChain next x p x

theorem pathChain_next_not_mem {next : NodeID → List NodeID} (hacyc : NextAcyclic next)
    {start : NodeID} {p : List NodeID} {x z : NodeID}
    (h : PathChain next start p x) (hz : z ∈ next x) : z ∉ p := by
  intro hmem
  obtain ⟨p1, p2, rfl⟩ := List.append_of_mem hmem
  exact hacyc z (p2 ++ [z]) (by simp) ((pathChain_suffix p1 h).snoc hz)

/-- Every accumulator entry is reachable within `d + 1` levels of the start. -/
def accBounded (next : NodeID → List NodeID) (start : NodeID) (d : Nat)
    (acc : List NodeID) : Prop :=
  ∀ y ∈ acc, ∃ p, PathChain next start p y ∧ 1 ≤ p.length ∧ p.length ≤ d + 1

/-- Every frontier entry of level `L` is the end of a duplicate-free chain of
length `L` from the start whose nodes all already sit in the accumulator. -/
def frontierLinked (next : NodeID → List NodeID) (start : NodeID) (L : Nat)
    (acc frontier : List NodeID) : Prop :=
  ∀ x ∈ frontier, ∃ p, PathChain next start p x ∧ p.length = L ∧ p.Nodup ∧ ∀ y ∈ p, y ∈ acc

theorem frontierLinked_mono {next : NodeID → List NodeID} {start : NodeID} {L : Nat}
    {acc acc2 frontier : List NodeID} (h : frontierLinked next start L acc frontier)
    (hsub : ∀ y ∈ acc, y ∈ acc2) : frontierLinked next start L acc2 frontier := by
  intro x hx
  obtain ⟨p, h1, h2, h3, h4⟩ := h x hx
  exact ⟨p, h1, h2, h3, fun y hy => hsub y (h4 y hy)⟩

theorem hierarchyLevelStep_bound (next : NodeID → List NodeID) (hacyc : NextAcyclic next)
    (start : NodeID) (d L : Nat) :
    ∀ (frontier acc : List NodeID),
      acc.Nodup →
      accBounded next start d acc →
      frontierLinked next start L acc frontier →
      (L = 0 ∨ L < d) →
      (∃ ext, (hierarchyLevelStep next (some d) acc frontier).1 = acc ++ ext) ∧
        (hierarchyLevelStep next (some d) acc frontier).1.Nodup ∧
        accBounded next start d (hierarchyLevelStep next (some d) acc frontier).1 ∧
        frontierLinked next start (L + 1) (hierarchyLevelStep next (some d) acc frontier).1
          (hierarchyLevelStep next (some d) acc frontier).2 ∧
        ((hierarchyLevelStep next (some d) acc frontier).2 ≠ [] → L + 1 < d) := by
  intro frontier
  induction frontier with
  | nil =>
    intro acc hnd hb _ _
    exact ⟨⟨[], by simp [hierarchyLevelStep]⟩, hnd, hb,
      fun x hx => absurd hx (List.not_mem_nil x), fun h => absurd rfl h⟩
  | cons x xs ih =>
    intro acc hnd hb hf hL
    obtain ⟨px, hpx, hpxlen, hpxnd, hpxsub⟩ := hf x (List.mem_cons_self x xs)
    have hfxs : frontierLinked next start L acc xs :=
      fun q hq => hf q (List.mem_cons_of_mem x hq)
    by_cases hg : next x = [] ∨ SYSTEM ∈ next x
    · have hstep : hierarchyNodeStep next (some d) acc x = (acc, []) := by
        simp [hierarchyNodeStep, hg]
      have heq : hierarchyLevelStep next (some d) acc (x :: xs)
          = hierarchyLevelStep next (some d) acc xs := by
        simp [hierarchyLevelStep, hstep]
      rw [heq]
      exact ih acc hnd hb hfxs hL
    · obtain ⟨ext0, heq0, hext0⟩ := pushNewNodes_extension (next x) acc
      have hnd2 : (pushNewNodes acc (next x)).Nodup := pushNewNodes_nodup (next x) acc hnd
      have hsubacc : ∀ y ∈ acc, y ∈ pushNewNodes acc (next x) := by
        intro y hy; rw [heq0]; exact List.mem_append_left _ hy
      have hnxsub : ∀ z ∈ next x, z ∈ pushNewNodes acc (next x) := by
        intro z hz; rw [pushNewNodes_mem]; exact Or.inr hz
      have hLd : L + 1 ≤ d + 1 := by rcases hL with h | h <;> omega
      have hb2 : accBounded next start d (pushNewNodes acc (next x)) := by
        intro y hy
        rw [pushNewNodes_mem] at hy
        rcases hy with h | h
        · exact hb y h
        · exact ⟨px ++ [y], hpx.snoc h, by simp, by simp [hpxlen]; omega⟩
      have hpath2 : ∀ z ∈ next x, ∃ p, PathChain next start p z ∧ p.length = L + 1 ∧
          p.Nodup ∧ ∀ y ∈ p, y ∈ pushNewNodes acc (next x) := by
        intro z hz
        have hznotin : z ∉ px := pathChain_next_not_mem hacyc hpx hz
        refine ⟨px ++ [z], hpx.snoc hz, by simp [hpxlen], ?_, ?_⟩
        · simp [List.nodup_append, hpxnd, hznotin]
        · intro y hy
          rcases List.mem_append.mp hy with h | h
          · exact hsubacc y (hpxsub y h)
          · have : y = z := by simpa using h
            exact this ▸ hnxsub z hz
      have hfxs2 : frontierLinked next start L (pushNewNodes acc (next x)) xs :=
        frontierLinked_mono hfxs hsubacc
      obtain ⟨⟨ext1, heq1⟩, hnd1, hb1, hf1, hcond1⟩ := ih (pushNewNodes acc (next x)) hnd2 hb2 hfxs2 hL
      by_cases hdep : depthReached (some d) (pushNewNodes acc (next x)) = true
      · have hstep : hierarchyNodeStep next (some d) acc x = (pushNewNodes acc (next x), []) := by
          simp [hierarchyNodeStep, hg, hdep]
        have heq : hierarchyLevelStep next (some d) acc (x :: xs)
            = hierarchyLevelStep next (some d) (pushNewNodes acc (next x)) xs := by
          simp [hierarchyLevelStep, hstep]
        rw [heq]
        exact ⟨⟨ext0 ++ ext1, by rw [heq1, heq0, List.append_assoc]⟩, hnd1, hb1, hf1, hcond1⟩
      · have hstep : hierarchyNodeStep next (some d) acc x
            = (pushNewNodes acc (next x), next x) := by
          simp [hierarchyNodeStep, hg, hdep]
        have heq : hierarchyLevelStep next (some d) acc (x :: xs)
            = ((hierarchyLevelStep next (some d) (pushNewNodes acc (next x)) xs).1,
                next x ++ (hierarchyLevelStep next (some d) (pushNewNodes acc (next x)) xs).2) := by
          simp [hierarchyLevelStep, hstep]
        have hdlt : (pushNewNodes acc (next x)).length < d := by
          simp only [depthReached, decide_eq_true_eq] at hdep
          omega
        have hL1d : L + 1 < d := by
          obtain ⟨z, hz⟩ := List.exists_mem_of_ne_nil _ (fun h => hg (Or.inl h))
          obtain ⟨p, _, hplen, hpnd, hpsub⟩ := hpath2 z hz
          have hle : p.length ≤ (pushNewNodes acc (next x)).length :=
            (List.subperm_of_subset hpnd hpsub).length_le
          omega
        rw [heq]
        refine ⟨⟨ext0 ++ ext1, by rw [heq1, heq0, List.append_assoc]⟩, hnd1, hb1, ?_, fun _ => hL1d⟩
        intro q hq
        rcases List.mem_append.mp hq with h | h
        · obtain ⟨p, hp1, hp2, hp3, hp4⟩ := hpath2 q h
          exact ⟨p, hp1, hp2, hp3, fun y hy => by rw [heq1]; exact List.mem_append_left _ (hp4 y hy)⟩
        · exact hf1 q h

theorem walkHierarchyAux_bound (next : NodeID → List NodeID) (hacyc : NextAcyclic next)
    (start : NodeID) (d : Nat) :
    ∀ (fuel L : Nat) (acc frontier : List NodeID),
      acc.Nodup →
      accBounded next start d acc →
      frontierLinked next start L acc frontier →
      (frontier ≠ [] → L = 0 ∨ L < d) →
      accBounded next start d (walkHierarchyAux next (some d) fuel acc frontier) := by
  intro fuel
  induction fuel with
  | zero => intro L acc frontier _ hb _ _; exact hb
  | succ fuel ih =>
    intro L acc frontier hnd hb hf hL
    cases frontier with
    | nil => rw [walkHierarchyAux_nil_frontier]; exact hb
    | cons x xs =>
      have hL' : L = 0 ∨ L < d := hL (by simp)
      obtain ⟨_, hnd1, hb1, hf1, hcond⟩ :=
        hierarchyLevelStep_bound next hacyc start d L (x :: xs) acc hnd hb hf hL'
      simp only [walkHierarchyAux]
      exact ih (L + 1) _ _ hnd1 hb1 hf1 (fun h => Or.inr (hcond h))

theorem pathChain_nil_eq {next : NodeID → List NodeID} {x y : NodeID}
    (h : PathChain next x [] y) : x = y := by
  cases h
  rfl

/-- Single-edge hierarchy (`"a"` is a member of `"b"`) used to exhibit the
soft-depth overshoot. -/
def overshootStore : RelationshipStore :=
  { edges := [⟨"a", "is-member", "b"⟩], edgeCreateError := none, removeError := none }

theorem overshootStore_parents (x : NodeID) :
    nodeParents overshootStore x = if "a" = x then ["b"] else [] := by
  by_cases hx : "a" = x
  · simp [nodeParents, retrieveObjectOfRelationshipWithSubject, overshootStore, hx,
      List.filter]
  · have hbeq : ("a" == x) = false := beq_eq_false_iff_ne.mpr hx
    simp [nodeParents, retrieveObjectOfRelationshipWithSubject, overshootStore, hx,
      List.filter, hbeq]

theorem overshootStore_acyclic : NextAcyclic (nodeParents overshootStore) := by
  intro x p hne hchain
  cases hchain with
  | nil => exact hne rfl
  | cons hy hrest =>
    rw [overshootStore_parents] at hy
    by_cases hx : "a" = x
    · rw [if_pos hx] at hy
      have hyb := by simpa using hy
      subst hyb
      cases hrest with
      | nil => exact absurd hx (by decide)
      | cons hy2 _ =>
        rw [overshootStore_parents] at hy2
        rw [if_neg (by decide)] at hy2
        exact absurd hy2 (List.not_mem_nil _)
    · rw [if_neg hx] at hy
      exact absurd hy (List.not_mem_nil _)

/-- C5: the walks' `depth` argument is a soft bound.  On every acyclic
hierarchy, every node returned by `walkHierarchyTreeUpward` or
`walkHierarchyTreeDownward` with depth `d` lies within `d + 1` levels of the
start (so the result never exceeds the nodes within `d` levels by more than
one additional level), and the bound is soft: for the single-edge store and
depth `0` the walk still returns the node `"b"`, which lies strictly beyond
depth `0`. -/
theorem walk_depth_soft_bound :
    (∀ (s : RelationshipStore) (start : NodeID) (d fuel : Nat),
        NextAcyclic (nodeParents s) →
        ∀ y ∈ walkHierarchyTreeUpward s start (some d) fuel,
          ∃ p, PathChain (nodeParents s) start p y ∧ 1 ≤ p.length ∧ p.length ≤ d + 1)
    ∧ (∀ (s : RelationshipStore) (start : NodeID) (d fuel : Nat),
        NextAcyclic (nodeChildren s) →
        ∀ y ∈ walkHierarchyTreeDownward s start (some d) fuel,
          ∃ p, PathChain (nodeChildren s) start p y ∧ 1 ≤ p.length ∧ p.length ≤ d + 1)
    ∧ ("b" ∈ walkHierarchyTreeUpward overshootStore "a" (some 0) 1 ∧
        ¬ ∃ p, PathChain (nodeParents overshootStore) "a" p "b" ∧ p.length ≤ 0) := by
  have hstartlink : ∀ (next : NodeID → List NodeID) (start : NodeID),
      frontierLinked next start 0 [] [start] := by
    intro next start x hx
    have hxs : x = start := by simpa using hx
    subst hxs
    exact ⟨[], PathChain.nil x, rfl, List.nodup_nil, fun y hy => absurd hy (List.not_mem_nil y)⟩
  refine ⟨?_, ?_, ?_, ?_⟩
  · intro s start d fuel hacyc
    exact walkHierarchyAux_bound (nodeParents s) hacyc start d fuel 0 [] [start]
      List.nodup_nil (fun y hy => absurd hy (List.not_mem_nil y))
      (hstartlink (nodeParents s) start) (fun _ => Or.inl rfl)
  · intro s start d fuel hacyc
    exact walkHierarchyAux_bound (nodeChildren s) hacyc start d fuel 0 [] [start]
      List.nodup_nil (fun y hy => absurd hy (List.not_mem_nil y))
      (hstartlink (nodeChildren s) start) (fun _ => Or.inl rfl)
  · decide
  · rintro ⟨p, hp, hlen⟩
    have hnil : p = [] := List.eq_nil_of_length_eq_zero (Nat.le_zero.mp hlen)
    subst hnil
    exact absurd (pathChain_nil_eq hp) (by decide)

/-- Witness for C5: the bound applied to the concrete single-edge acyclic
store with depth `1` yields a chain of length between `1` and `2` for the
returned node `"b"`. -/
theorem walk_depth_soft_bound_witness :
    ∃ p, PathChain (nodeParents overshootStore) "a" p "b" ∧ 1 ≤ p.length ∧ p.length ≤ 1 + 1 :=
  walk_depth_soft_bound.1 overshootStore "a" 1 2 overshootStore_acyclic "b" (by decide)

def emptyRelStore : RelationshipStore :=
  { edges := [], edgeCreateError := none, removeError := none }

def emptyDatastore : Datastore :=
  { hashes := fun _ => none, sets := [], hashWriteError := none, setWriteError := none }

/-- Counterexample to C3 as stated: with a relationship store holding no
`is-member` edge for the user, `createResource` without an explicit parent
fails — but with the base `NucleusError` class (`new NucleusError(...)` at the
parent check), not with the undefined-context kind
(`UndefinedContextNucleusError`) the claim names. -/
theorem createResource_no_parent_error_not_undefinedContext :
    (createResource (some emptyRelStore) (some emptyDatastore) "Dummy"
        (nucleusResourceModel "Dummy" "fresh-id" 0) emptyFieldSet "user-1" none).outcome
      = .error ⟨.base, "Could not retrieve the node which the origin user (user-1) is member of."⟩
    ∧ NucleusErrorKind.base ≠ NucleusErrorKind.undefinedContext := by
  exact ⟨rfl, by decide⟩

/-- C3 (amended): with no explicit `parentNodeID`, the parent is resolved as
the first direct `is-member` object of the origin user read from the
relationship store (the member-node ID of every successful outcome is that
first object); when no parent can be resolved this way — the user has no
`is-member` object, or no relationship store is configured — the call fails
with a base `NucleusError` naming the origin user, not with the
undefined-context kind. -/
theorem createResource_parent_resolution :
    (∀ (s : RelationshipStore) (ds : Datastore) (resourceType : String)
        (factory : ResourceFactory) (attrs : FieldSet) (originUserID : String),
        originUserID ≠ "" →
        (∀ p ps, retrieveObjectOfRelationshipWithSubject s originUserID "is-member" = p :: ps →
          ∀ out, (createResource (some s) (some ds) resourceType factory attrs
              originUserID none).outcome = .ok out →
            out.resourceMemberNodeID = p)
        ∧ (retrieveObjectOfRelationshipWithSubject s originUserID "is-member" = [] →
          (createResource (some s) (some ds) resourceType factory attrs originUserID none).outcome
            = .error ⟨.base, "Could not retrieve the node which the origin user ("
                ++ originUserID ++ ") is member of."⟩))
    ∧ (∀ (ds : Datastore) (resourceType : String) (factory : ResourceFactory)
        (attrs : FieldSet) (originUserID : String),
        originUserID ≠ "" →
        (createResource none (some ds) resourceType factory attrs originUserID none).outcome
          = .error ⟨.base, "Could not retrieve the node which the origin user ("
              ++ originUserID ++ ") is member of."⟩) := by
  constructor
  · intro s ds resourceType factory attrs originUserID huser
    constructor
    · intro p ps hP out hout
      simp only [createResource, if_neg huser, hP, List.head?] at hout
      repeat' split at hout
      all_goals
        first
          | exact Except.noConfusion hout
          | (cases hout; rfl)
    · intro hP
      simp only [createResource, if_neg huser, hP, List.head?]
  · intro ds resourceType factory attrs originUserID huser
    simp only [createResource, if_neg huser]

def witnessRelStore : RelationshipStore :=
  { edges := [⟨"u9", "is-member", "org-9"⟩], edgeCreateError := none, removeError := none }

/-- Witness for the amended C3: a concrete user whose first direct
`is-member` object is `"org-9"` has that node resolved as the parent of the
created resource, and a concrete user without one receives the base-kind
error. -/
theorem createResource_parent_resolution_witness :
    retrieveObjectOfRelationshipWithSubject witnessRelStore "u9" "is-member" = ["org-9"] ∧
      (∃ out, (createResource (some witnessRelStore) (some emptyDatastore) "Dummy"
          (nucleusResourceModel "Dummy" "fresh-id" 0) emptyFieldSet "u9" none).outcome = .ok out ∧
        out.resourceMemberNodeID = "org-9") ∧
      (createResource none (some emptyDatastore) "Dummy"
          (nucleusResourceModel "Dummy" "fresh-id" 0) emptyFieldSet "u9" none).outcome
        = .error ⟨.base, "Could not retrieve the node which the origin user (u9) is member of."⟩ := by
  refine ⟨rfl, ⟨⟨⟨"Dummy", "fresh-id", ⟨some 0, some 0⟩, []⟩, "u9", "org-9"⟩, rfl, ?_⟩, ?_⟩
  · exact ((createResource_parent_resolution.1 witnessRelStore emptyDatastore "Dummy"
      (nucleusResourceModel "Dummy" "fresh-id" 0) emptyFieldSet "u9" (by decide)).1
      "org-9" [] rfl _ rfl)
  · exact createResource_parent_resolution.2 emptyDatastore "Dummy"
      (nucleusResourceModel "Dummy" "fresh-id" 0) emptyFieldSet "u9" (by decide)

def failingWriteError : NucleusError := ⟨.base, "Store write failed."⟩

def failingDatastore : Datastore :=
  { hashes := fun _ => none, sets := [], hashWriteError := some failingWriteError
  , setWriteError := none }

def throwingFactory : ResourceFactory :=
  fun _ _ _ => .error ⟨.unexpectedValueType, "The resource is invalid."⟩

/-- C4 (code bug): when the record-store write rejects, `createResource`
settles with the store's own raw error instead of the external-dependency
wrapper naming the resource type: the `try` block returns the store promise
without awaiting it, so the `catch` clause — whose message even says
"because of an external error" — can never intercept a store rejection.
The wrap fires only for synchronous throws such as a factory validation
error, as the last conjunct shows. -/
theorem createResource_store_rejection_unwrapped :
    (createResource (some emptyRelStore) (some failingDatastore) "Dummy"
        (nucleusResourceModel "Dummy" "fresh-id" 0) emptyFieldSet "user-1" (some "parent-1")).outcome
      = .error failingWriteError
    ∧ (failingWriteError
        ≠ ⟨.base, "Could not create Dummy because of an external error: "
            ++ failingWriteError.message⟩)
    ∧ (createResource (some emptyRelStore) (some emptyDatastore) "Dummy"
        throwingFactory emptyFieldSet "user-1" (some "parent-1")).outcome
      = .error ⟨.base, "Could not create Dummy because of an external error: The resource is invalid."⟩ := by
  exact ⟨rfl, by decide, rfl⟩

theorem lookup_append (l1 l2 : List (String × String)) (k : String) :
    (l1 ++ l2).lookup k = optionOr (l1.lookup k) (l2.lookup k) := by
  induction l1 with
  | nil => simp [optionOr]
  | cons kv l1 ih =>
    cases kv with
    | mk k1 v1 =>
      by_cases h : (k == k1) = true
      · simp [List.lookup, h, optionOr]
      · have hfalse : (k == k1) = false := by simpa using h
        simp [List.lookup, hfalse, ih]

/-- C7: a successful `updatesResourceByID` writes back exactly the merged
meta block plus the patch fields (after reserved-key stripping): in the
stored record after the call, the `meta` field equals the returned resource's
meta block, every field present in the patch holds the patch value, and every
stored field not named in the patch — the `ID` field, every other open field,
and every other record — is unchanged: a field-level merge-write, not a
full-record overwrite. -/
theorem updatesResourceByID_field_merge_write (relStore : Option RelationshipStore)
    (ds : Datastore) (resourceType : String) (factory : ResourceFactory) (resourceID : String)
    (attrs : FieldSet) (user : String) (fuel t1 t2 : Nat) (oldRec : FieldSet)
    (res : NucleusResource)
    (huser : user ≠ "")
    (hauth : verifyThatUserCanUpdateResource relStore user resourceID fuel = true)
    (hold : ds.hashes (generateItemKey resourceType resourceID) = some oldRec)
    (hwrite : ds.hashWriteError = none)
    (hres : (updatesResourceByID relStore (some ds) resourceType factory resourceID attrs user
        fuel t1 t2).outcome = .ok res) :
    ∃ dsA, (updatesResourceByID relStore (some ds) resourceType factory resourceID attrs user
        fuel t1 t2).datastoreAfter = some dsA ∧
      ∃ newRec, dsA.hashes (generateItemKey resourceType resourceID) = some newRec ∧
        newRec.idField = oldRec.idField ∧
        newRec.metaField = some res.meta ∧
        (∀ k v, attrs.fields.lookup k = some v → newRec.fields.lookup k = some v) ∧
        (∀ k, attrs.fields.lookup k = none → newRec.fields.lookup k = oldRec.fields.lookup k) ∧
        (∀ k2, k2 ≠ generateItemKey resourceType resourceID → dsA.hashes k2 = ds.hashes k2) := by
  simp only [updatesResourceByID, if_neg huser, hauth, if_true, hold, hwrite] at hres ⊢
  split at hres
  · exact Except.noConfusion hres
  · rename_i resource0 heqfac
    cases hres
    refine ⟨ds.writeHash (generateItemKey resourceType resourceID)
        { idField := none
        , metaField := some { createdISOTime := resource0.meta.createdISOTime
                            , updatedISOTime := some t2 }
        , fields := attrs.fields }, rfl,
      mergeFieldSet oldRec
        { idField := none
        , metaField := some { createdISOTime := resource0.meta.createdISOTime
                            , updatedISOTime := some t2 }
        , fields := attrs.fields }, ?_, rfl, rfl, ?_, ?_, ?_⟩
    · simp [Datastore.writeHash, hold]
    · intro k v hk
      simp only [mergeFieldSet, lookup_append, hk, optionOr]
    · intro k hk
      simp only [mergeFieldSet, lookup_append, hk, optionOr]
    · intro k2 hk2
      simp [Datastore.writeHash, hk2]

def c7OldRecord : FieldSet :=
  { idField := some "res-1", metaField := some ⟨some 10, some 20⟩
  , fields := [("name", "old-name"), ("color", "blue")] }

def c7Datastore : Datastore :=
  { hashes := fun k => if k = "Dummy:res-1" then some c7OldRecord else none
  , sets := [], hashWriteError := none, setWriteError := none }

def c7Patch : FieldSet :=
  { idField := some "evil", metaField := some ⟨some 99, some 99⟩
  , fields := [("name", "new-name")] }

/-- Witness for C7: a concrete successful update (no relationship store, so
the authorization check passes) writes the meta block plus the single patched
field and leaves the unpatched `color` field and the `ID` field in place. -/
theorem updatesResourceByID_field_merge_write_witness :
    ∃ dsA, (updatesResourceByID none (some c7Datastore) "Dummy"
        (nucleusResourceModel "Dummy" "f" 0) "res-1" c7Patch "u1" 1 30 40).datastoreAfter
        = some dsA ∧
      ∃ newRec, dsA.hashes (generateItemKey "Dummy" "res-1") = some newRec ∧
        newRec.idField = c7OldRecord.idField ∧
        newRec.metaField = some (⟨"Dummy", "res-1", ⟨some 10, some 40⟩,
          [("name", "new-name"), ("name", "old-name"), ("color", "blue")]⟩ : NucleusResource).meta ∧
        (∀ k v, c7Patch.fields.lookup k = some v → newRec.fields.lookup k = some v) ∧
        (∀ k, c7Patch.fields.lookup k = none →
          newRec.fields.lookup k = c7OldRecord.fields.lookup k) ∧
        (∀ k2, k2 ≠ generateItemKey "Dummy" "res-1" → dsA.hashes k2 = c7Datastore.hashes k2) :=
  updatesResourceByID_field_merge_write none c7Datastore "Dummy"
    (nucleusResourceModel "Dummy" "f" 0) "res-1" c7Patch "u1" 1 30 40 c7OldRecord
    ⟨"Dummy", "res-1", ⟨some 10, some 40⟩,
      [("name", "new-name"), ("name", "old-name"), ("color", "blue")]⟩
    (by decide) rfl rfl rfl rfl

/-- C8: a successful `updatesResourceByID` on an existing record (with the
spec-modelled factory) leaves the resource's stored `ID` field and the
original creation timestamp unchanged, stamps the stored `updatedISOTime`
with the second clock reading `t2`, and — whenever the clock is monotone
(`u0 ≤ t2` for the previously stored value `u0`) — the stored
`updatedISOTime` after the call is not earlier than its value before. -/
theorem updatesResourceByID_preserves_id_and_creation (relStore : Option RelationshipStore)
    (ds : Datastore) (resourceType freshID : String) (tf : Nat) (resourceID : String)
    (attrs : FieldSet) (user : String) (fuel t1 t2 : Nat) (oldRec : FieldSet)
    (m0 : NucleusMeta) (oldID : String) (c0 u0 : Nat)
    (huser : user ≠ "")
    (hauth : verifyThatUserCanUpdateResource relStore user resourceID fuel = true)
    (hold : ds.hashes (generateItemKey resourceType resourceID) = some oldRec)
    (hOldID : oldRec.idField = some oldID)
    (hMeta : oldRec.metaField = some m0)
    (hC : m0.createdISOTime = some c0)
    (hU : m0.updatedISOTime = some u0)
    (hclock : u0 ≤ t2)
    (hwrite : ds.hashWriteError = none) :
    ∃ res dsA newRec,
      (updatesResourceByID relStore (some ds) resourceType
          (nucleusResourceModel resourceType freshID tf) resourceID attrs user
          fuel t1 t2).outcome = .ok res ∧
        (updatesResourceByID relStore (some ds) resourceType
          (nucleusResourceModel resourceType freshID tf) resourceID attrs user
          fuel t1 t2).datastoreAfter = some dsA ∧
        dsA.hashes (generateItemKey resourceType resourceID) = some newRec ∧
        res.ID = oldID ∧
        newRec.idField = some oldID ∧
        newRec.metaField = some { createdISOTime := some c0, updatedISOTime := some t2 } ∧
        u0 ≤ t2 := by
  simp only [updatesResourceByID, if_neg huser, hauth, if_true, hold, hwrite,
    nucleusResourceModel, mergeFieldSet, hMeta, hC, hU, hOldID, optionOr, Option.getD]
  refine ⟨_, _, mergeFieldSet oldRec
      { idField := none, metaField := some ⟨some c0, some t2⟩, fields := attrs.fields },
    rfl, rfl, ?_, ?_, ?_, ?_, hclock⟩
  · simp [Datastore.writeHash, hold]
  · simp [optionOr, hOldID]
  · simp [mergeFieldSet, optionOr, hOldID]
  · simp [mergeFieldSet, optionOr]

/-- Witness for C8: the concrete update of `c7Datastore` keeps the stored ID
`"res-1"` and creation time `10`, and moves `updatedISOTime` from `20` to the
fresh reading `40`. -/
theorem updatesResourceByID_preserves_id_and_creation_witness :
    ∃ res dsA newRec,
      (updatesResourceByID none (some c7Datastore) "Dummy"
          (nucleusResourceModel "Dummy" "f" 0) "res-1" c7Patch "u1" 1 30 40).outcome = .ok res ∧
        (updatesResourceByID none (some c7Datastore) "Dummy"
          (nucleusResourceModel "Dummy" "f" 0) "res-1" c7Patch "u1" 1 30 40).datastoreAfter
          = some dsA ∧
        dsA.hashes (generateItemKey "Dummy" "res-1") = some newRec ∧
        res.ID = "res-1" ∧
        newRec.idField = some "res-1" ∧
        newRec.metaField = some { createdISOTime := some 10, updatedISOTime := some 40 } ∧
        20 ≤ 40 :=
  updatesResourceByID_preserves_id_and_creation none c7Datastore "Dummy" "f" 0 "res-1"
    c7Patch "u1" 1 30 40 c7OldRecord ⟨some 10, some 20⟩ "res-1" 10 20
    (by decide) rfl rfl rfl rfl rfl rfl (by decide) rfl

/-- C9: once `removeResourceByID` passes validation, authorization and the
existence check, the record is deleted first; then, when the relationship
cleanup succeeds, every edge touching the resource ID as either endpoint is
removed while all other edges survive, and when the cleanup fails the whole
call settles as that error even though the record deletion has already taken
effect — the record is gone in the resulting state and the edges are left as
they were (nothing is restored). -/
theorem removeResourceByID_cleanup_after_delete (s : RelationshipStore) (ds : Datastore)
    (resourceType resourceID user : String) (fuel : Nat)
    (huser : user ≠ "")
    (hauth : verifyThatUserCanUpdateResource (some s) user resourceID fuel = true)
    (hexists : (ds.hashes (generateItemKey resourceType resourceID)).isSome = true) :
    (∃ dsA, (removeResourceByID (some s) (some ds) resourceType resourceID user
        fuel).datastoreAfter = some dsA ∧
      dsA.hashes (generateItemKey resourceType resourceID) = none ∧
      ∀ k, k ≠ generateItemKey resourceType resourceID → dsA.hashes k = ds.hashes k)
    ∧ (s.removeError = none →
        (removeResourceByID (some s) (some ds) resourceType resourceID user fuel).outcome
          = .ok resourceID ∧
        ∃ sA, (removeResourceByID (some s) (some ds) resourceType resourceID user
            fuel).relStoreAfter = some sA ∧
          (∀ e ∈ sA.edges, e.subject ≠ resourceID ∧ e.object ≠ resourceID) ∧
          (∀ e ∈ s.edges, e.subject ≠ resourceID → e.object ≠ resourceID → e ∈ sA.edges))
    ∧ (∀ err, s.removeError = some err →
        (removeResourceByID (some s) (some ds) resourceType resourceID user fuel).outcome
          = .error err ∧
        (removeResourceByID (some s) (some ds) resourceType resourceID user
          fuel).relStoreAfter = some s) := by
  simp only [removeResourceByID, if_neg huser, hauth, if_true, hexists]
  refine ⟨?_, ?_, ?_⟩
  · cases hrem : s.removeError with
    | some err =>
      exact ⟨_, rfl, by simp [Datastore.removeItem], fun k hk => by simp [Datastore.removeItem, hk]⟩
    | none =>
      exact ⟨_, rfl, by simp [Datastore.removeItem], fun k hk => by simp [Datastore.removeItem, hk]⟩
  · intro hrem
    simp only [hrem]
    refine ⟨by trivial, _, by trivial, ?_, ?_⟩
    · intro e he
      have := List.of_mem_filter he
      constructor
      · intro hsub
        rw [hsub] at this
        simp at this
      · intro hobj
        rw [hobj] at this
        simp at this
    · intro e he hsub hobj
      refine List.mem_filter.mpr ⟨he, ?_⟩
      simp [hsub, hobj]
  · intro err hrem
    simp only [hrem]
    exact ⟨by trivial, by trivial⟩

def c9Store : RelationshipStore :=
  { edges := [⟨"u1", "is-member", "org"⟩, ⟨"res-9", "is-member", "org"⟩]
  , edgeCreateError := none, removeError := some ⟨.base, "Edge removal failed."⟩ }

def c9Datastore : Datastore :=
  { hashes := fun k => if k = "Dummy:res-9" then some ⟨some "res-9", none, []⟩ else none
  , sets := [], hashWriteError := none, setWriteError := none }

/-- Witness for C9: in a concrete state whose relationship cleanup rejects,
the call settles as that rejection while the record is already gone from the
resulting datastore. -/
theorem removeResourceByID_cleanup_after_delete_witness :
    (∃ dsA, (removeResourceByID (some c9Store) (some c9Datastore) "Dummy" "res-9" "u1"
        3).datastoreAfter = some dsA ∧
      dsA.hashes (generateItemKey "Dummy" "res-9") = none ∧
      ∀ k, k ≠ generateItemKey "Dummy" "res-9" → dsA.hashes k = c9Datastore.hashes k)
    ∧ (c9Store.removeError = none →
        (removeResourceByID (some c9Store) (some c9Datastore) "Dummy" "res-9" "u1" 3).outcome
          = .ok "res-9" ∧
        ∃ sA, (removeResourceByID (some c9Store) (some c9Datastore) "Dummy" "res-9" "u1"
            3).relStoreAfter = some sA ∧
          (∀ e ∈ sA.edges, e.subject ≠ "res-9" ∧ e.object ≠ "res-9") ∧
          (∀ e ∈ c9Store.edges, e.subject ≠ "res-9" → e.object ≠ "res-9" → e ∈ sA.edges))
    ∧ (∀ err, c9Store.removeError = some err →
        (removeResourceByID (some c9Store) (some c9Datastore) "Dummy" "res-9" "u1" 3).outcome
          = .error err ∧
        (removeResourceByID (some c9Store) (some c9Datastore) "Dummy" "res-9" "u1"
          3).relStoreAfter = some c9Store) :=
  removeResourceByID_cleanup_after_delete c9Store c9Datastore "Dummy" "res-9" "u1" 3
    (by decide) rfl rfl

/-- C10: both `createResource` and `updatesResourceByID` delete the reserved
keys `ID` and `meta` from the very attributes object the caller passed in
(`Reflect.deleteProperty`), so after any call that reaches the mutation point
the caller's object no longer contains those keys; in `createResource` the
original `ID` value is saved beforehand and handed to the factory as the
reserved ID, so (with the spec-modelled factory) the created resource carries
the caller-suggested ID. -/
theorem attributes_mutated_in_place :
    (∀ (relStore : Option RelationshipStore) (ds : Datastore) (resourceType : String)
        (freshID : String) (tnow : Nat) (attrs : FieldSet) (user parent : String),
        user ≠ "" →
        (createResource relStore (some ds) resourceType
            (nucleusResourceModel resourceType freshID tnow) attrs user
            (some parent)).attributesAfter.idField = none ∧
        (createResource relStore (some ds) resourceType
            (nucleusResourceModel resourceType freshID tnow) attrs user
            (some parent)).attributesAfter.metaField = none ∧
        (∀ origID, attrs.idField = some origID →
          ∀ out, (createResource relStore (some ds) resourceType
              (nucleusResourceModel resourceType freshID tnow) attrs user
              (some parent)).outcome = .ok out →
            out.resource.ID = origID))
    ∧ (∀ (relStore : Option RelationshipStore) (ds : Datastore) (resourceType : String)
        (factory : ResourceFactory) (resourceID : String) (attrs : FieldSet) (user : String)
        (fuel t1 t2 : Nat),
        user ≠ "" →
        verifyThatUserCanUpdateResource relStore user resourceID fuel = true →
        (ds.hashes (generateItemKey resourceType resourceID)).isSome = true →
        (updatesResourceByID relStore (some ds) resourceType factory resourceID attrs user
            fuel t1 t2).attributesAfter.idField = none ∧
        (updatesResourceByID relStore (some ds) resourceType factory resourceID attrs user
            fuel t1 t2).attributesAfter.metaField = none) := by
  constructor
  · intro relStore ds resourceType freshID tnow attrs user parent huser
    have hparent : (match relStore, (some parent : Option String) with
        | some s, none => (retrieveObjectOfRelationshipWithSubject s user "is-member").head?
        | _, p => p) = some parent := by
      cases relStore <;> rfl
    refine ⟨?_, ?_, ?_⟩
    · simp only [createResource, if_neg huser, hparent, nucleusResourceModel]
      repeat' split
      all_goals rfl
    · simp only [createResource, if_neg huser, hparent, nucleusResourceModel]
      repeat' split
      all_goals rfl
    · intro origID hid out hout
      simp only [createResource, if_neg huser, hparent, nucleusResourceModel, hid, optionOr] at hout
      repeat' split at hout
      all_goals
        first
          | exact Except.noConfusion hout
          | (cases hout; rfl)
  · intro relStore ds resourceType factory resourceID attrs user fuel t1 t2 huser hauth hex
    obtain ⟨stale, hstale⟩ := Option.isSome_iff_exists.mp hex
    constructor
    · simp only [updatesResourceByID, if_neg huser, hauth, if_true, hstale]
      repeat' split
      all_goals rfl
    · simp only [updatesResourceByID, if_neg huser, hauth, if_true, hstale]
      repeat' split
      all_goals rfl

/-- Witness for C10: concrete create and update calls both return the
caller's attributes object with the reserved keys gone, even though the
passed object carried both an `ID` and a `meta` value. -/
theorem attributes_mutated_in_place_witness :
    (createResource none (some emptyDatastore) "Dummy" (nucleusResourceModel "Dummy" "f" 0)
        c7Patch "u1" (some "p1")).attributesAfter.idField = none ∧
      (createResource none (some emptyDatastore) "Dummy" (nucleusResourceModel "Dummy" "f" 0)
        c7Patch "u1" (some "p1")).attributesAfter.metaField = none ∧
      (updatesResourceByID none (some c7Datastore) "Dummy" (nucleusResourceModel "Dummy" "f" 0)
        "res-1" c7Patch "u1" 1 30 40).attributesAfter.idField = none ∧
      (updatesResourceByID none (some c7Datastore) "Dummy" (nucleusResourceModel "Dummy" "f" 0)
        "res-1" c7Patch "u1" 1 30 40).attributesAfter.metaField = none := by
  obtain ⟨h1, h2, _⟩ := attributes_mutated_in_place.1 none emptyDatastore "Dummy" "f" 0
    c7Patch "u1" "p1" (by decide)
  obtain ⟨h3, h4⟩ := attributes_mutated_in_place.2 none c7Datastore "Dummy"
    (nucleusResourceModel "Dummy" "f" 0) "res-1" c7Patch "u1" 1 30 40 (by decide) rfl rfl
  exact ⟨h1, h2, h3, h4⟩

end Nucleus
